import Mathlib

/-!
Verification of the retrieval subsystem of the EdTech personal-tutor agent.

Shallow embedding of:
  * `src/agent/retrieval/compressor.py`   (ContextualizedCompressor)
  * `src/agent/retrieval/multi_query.py`  (MultiQueryRetriever)
  * `src/agent/retrieval/embeddings.py`   (EmbeddingsManager)
  * `src/agent/retrieval/rag_pipeline.py` (RAGPipeline)

Conventions of the embedding:
  * Python floats (similarity scores, embedding coordinates) are modelled
    as rationals; every comparison made by the code is order-theoretic.
  * LLM and network calls are modelled as explicit oracles passed as
    arguments; a fallible call is an `Except String` value.
  * Python dicts keyed by id are modelled as association lists in
    insertion order, which is how CPython dicts iterate.
  * Python `str.strip` and `str.split` are modelled by structurally
    recursive functions on the character list of the string.
  * Python `sorted` is a stable sort; the output of a stable sort is
    uniquely determined by the ordering relation, so it is modelled by
    stable insertion sort.
-/

/-- Embedding vector (list of coordinates). -/
abbrev Vec := List ℚ

/-- Qdrant `models.ScoredPoint` as used by the pipeline: the id (already
passed through `str`), the similarity score, and the payload text that
`_convert_to_documents` reads (`payload["page_content"]`). -/
structure ScoredPoint where
  id : String
  score : ℚ
  content : String
deriving DecidableEq, Repr

/-- LangChain `Document` as used by the pipeline: `page_content` plus the
metadata fields the retrieval code writes (`id`, `score`, and the fields
added by the compressor; `compression_factor` models the
ratio-of-lengths metadata entry written by the compressor). -/
structure Document where
  page_content : String
  id : String
  score : ℚ
  compressed : Bool := false
  original_length : Nat := 0
  compressed_length : Nat := 0
  compression_factor : ℚ := 0
  truncated : Bool := false
deriving DecidableEq, Repr

/-! ## Python string primitives -/

/-- Python `str.strip()`: remove leading and trailing whitespace. -/
def pyStrip (s : String) : String :=
  ⟨((s.data.dropWhile Char.isWhitespace).reverse.dropWhile
      Char.isWhitespace).reverse⟩

/-- Python `text.split("\n")` on the character list. -/
def splitOnNL : List Char → List (List Char)
  | [] => [[]]
  | c :: rest =>
    if c = '\n' then [] :: splitOnNL rest
    else
      match splitOnNL rest with
      | [] => [[c]]
      | h :: t => (c :: h) :: t

/-! ## ContextualizedCompressor (`compressor.py`)

`_compress_single_document` sends (document text, query) to the LLM and
returns the stripped reply, or the original text when the call fails; it
is modelled by a total oracle `String → String → String`.
`compress_documents` is the loop of lines 99-153: before each document it
breaks when the running token total has reached the budget, skips
documents whose compression result is the sentinel `"NOT_RELEVANT"`, and
otherwise appends the compressed document and adds `len(content) // 4`
tokens to the running total.  Besides the documents the model returns the
list of document texts sent to the oracle, so that theorems can speak
about which generation calls were made. -/

/-- The per-document loop of `compress_documents` (lines 102-144).
`total` is `total_tokens`; the second component records the text of each
document for which a generation call was issued. -/
def compressLoop (oracle : String → String → String) (query : String)
    (budget : Nat) : List Document → Nat → List Document × List String
  | [], _ => ([], [])
  | d :: rest, total =>
    if budget ≤ total then ([], [])
    else
      let c := oracle d.page_content query
      if c = "NOT_RELEVANT" then
        let r := compressLoop oracle query budget rest total
        (r.1, d.page_content :: r.2)
      else
        let r := compressLoop oracle query budget rest (total + c.length / 4)
        ({ d with
            page_content := c,
            compressed := true,
            original_length := d.page_content.length,
            compressed_length := c.length,
            compression_factor :=
              if 0 < d.page_content.length then
                (c.length : ℚ) / (d.page_content.length : ℚ)
              else 0 } :: r.1,
         d.page_content :: r.2)

/-- `ContextualizedCompressor.compress_documents` (lines 67-153): returns
`[]` for an empty document list, returns the documents unchanged for a
query that is empty after stripping, and otherwise runs the loop with a
running total of `0`. -/
def compress_documents (oracle : String → String → String) (budget : Nat)
    (documents : List Document) (query : String) :
    List Document × List String :=
  if documents = [] then ([], [])
  else if pyStrip query = "" then (documents, [])
  else compressLoop oracle query budget documents 0

/-! ## MultiQueryRetriever (`multi_query.py`)

`generate_queries` (lines 48-121): raises on a blank query, otherwise
asks the LLM for variations; the reply is split into stripped non-empty
lines, leading numbering (a dot within the first five characters) is
removed, the original query is placed first, generated variants equal to
the original are dropped, and the list is capped at
`num_variations + 1`.  On any failure of the generation call the
function falls back to `[original_query]`.  The LLM call is modelled as
an `Except String String` value. -/

/-- Numbering removal (lines 91-94):
`var.split(".", 1)[-1].strip() if "." in var[:5] else var`. -/
def stripNumbering (s : String) : String :=
  if (s.data.take 5).contains '.' then
    pyStrip ⟨(s.data.dropWhile (fun c => c ≠ '.')).drop 1⟩
  else s

/-- Parsing of the LLM reply (lines 84-94): split the stripped reply on
newlines, strip each line, drop empty lines, remove numbering. -/
def parseVariations (text : String) : List String :=
  ((((splitOnNL (pyStrip text).data).map
      (fun l => pyStrip ⟨l⟩)).filter (fun l => l ≠ "")).map stripNumbering)

/-- Assembly of the final query list (lines 97-102): original first, then
the variants that differ from it, capped at `num_variations + 1`. -/
def assembleQueries (numVariations : Nat) (originalQuery : String)
    (text : String) : List String :=
  (originalQuery ::
    (parseVariations text).filter (fun v => v ≠ originalQuery)).take
    (numVariations + 1)

/-- `MultiQueryRetriever.generate_queries` (lines 48-121). -/
def generate_queries (numVariations : Nat) (llm : Except String String)
    (originalQuery : String) : Except String (List String) :=
  if pyStrip originalQuery = "" then
    .error "Cannot generate queries from empty input"
  else
    match llm with
    | .error _ => .ok [originalQuery]
    | .ok text => .ok (assembleQueries numVariations originalQuery text)

/-! ## Deduplication and sorting (`rag_pipeline.py`, lines 197-222)

`_deduplicate_results` walks the hits in order, keeping one hit per id in
a dict (insertion order preserved); an existing entry is replaced only
when the new score is strictly greater.  The values are then sorted by
score descending with Python `sorted`, which is a stable sort. -/

/-- One iteration of the dict update (lines 211-215): replace the first
entry with the same id when the new score is strictly greater, keep its
position; otherwise append at the end. -/
def insertHit : List ScoredPoint → ScoredPoint → List ScoredPoint
  | [], r => [r]
  | p :: rest, r =>
    if p.id = r.id then (if p.score < r.score then r else p) :: rest
    else p :: insertHit rest r

/-- The ordering used at lines 218-220: `a` before `b` when
`b.score ≤ a.score` (descending by score). -/
def scoreDesc (a b : ScoredPoint) : Prop := b.score ≤ a.score

instance : DecidableRel scoreDesc := fun a b =>
  inferInstanceAs (Decidable (b.score ≤ a.score))

instance : IsTotal ScoredPoint scoreDesc :=
  ⟨fun a b => le_total b.score a.score⟩

instance : IsTrans ScoredPoint scoreDesc :=
  ⟨fun _ _ _ h1 h2 => le_trans h2 h1⟩

/-- `RAGPipeline._deduplicate_results` (lines 197-222): fold the hits
into the insertion-ordered dict, then stable-sort descending by score. -/
def deduplicate_results (results : List ScoredPoint) : List ScoredPoint :=
  (results.foldl insertHit []).insertionSort scoreDesc

/-! ## EmbeddingsManager (`embeddings.py`)

`embed_documents` (lines 120-199): for an empty input returns `[]`;
otherwise a first pass collects the cached vectors (in input order) and
the uncached texts together with their positions; if any text is
uncached, one single batched service call is issued for exactly those
texts, and a final loop rebuilds the output in input order, consuming
the new vectors at uncached positions and the cached vectors elsewhere.
The md5 cache key of a text is modelled by the text itself (md5 is
treated as collision-free), and the cache as an association list. -/

/-- Cache lookup, modelling `self._cache[md5(text)]`. -/
def lookupCache (cache : List (String × Vec)) (t : String) : Option Vec :=
  (cache.find? (fun p => p.1 == t)).map (fun p => p.2)

/-- First pass of `embed_documents` (lines 141-153): walking the texts
from position `i`, return (cached vectors in order, uncached texts in
order, their positions `text_indices`). -/
def splitCached (cache : List (String × Vec)) :
    List String → Nat → List Vec × List String × List Nat
  | [], _ => ([], [], [])
  | t :: rest, i =>
    let r := splitCached cache rest (i + 1)
    match lookupCache cache t with
    | some v => (v :: r.1, r.2.1, r.2.2)
    | none => (r.1, t :: r.2.1, i :: r.2.2)

/-- Merge loop of `embed_documents` (lines 170-183): position `i` runs
over the input; an uncached position (member of `text_indices`) consumes
the next new vector, a cached position the next cached vector.  The
index counters of the Python loop are modelled by consuming list heads.
`k` is the number of positions still to fill. -/
def mergeLoop : Nat → List Nat → List Vec → List Vec → Nat → List Vec
  | _, _, _, _, 0 => []
  | i, idxs, newE, cachedE, k + 1 =>
    if i ∈ idxs then
      newE.headD [] :: mergeLoop (i + 1) idxs newE.tail cachedE k
    else
      cachedE.headD [] :: mergeLoop (i + 1) idxs newE cachedE.tail k

/-- `EmbeddingsManager.embed_documents` (lines 120-199), parameterised by
the batched embedding service (`aembed_documents`). -/
def embed_documents (service : List String → Except String (List Vec))
    (cache : List (String × Vec)) (texts : List String) :
    Except String (List Vec) :=
  if texts = [] then .ok []
  else
    let s := splitCached cache texts 0
    if s.2.1 = [] then .ok s.1
    else
      match service s.2.1 with
      | .error e => .error e
      | .ok newE => .ok (mergeLoop 0 s.2.2 newE s.1 texts.length)

/-- The argument of the single batched service call made by
`embed_documents` (`texts_to_embed`); `[]` when no call is made. -/
def embedCallArgs (cache : List (String × Vec)) (texts : List String) :
    List String :=
  if texts = [] then [] else (splitCached cache texts 0).2.1

/-! ## RAGPipeline.retrieve (`rag_pipeline.py`, lines 58-159)

The pipeline: expand the query (when multi-query is enabled), embed all
query variants in one batch, search the collection once per variant with
`limit = top_k`, concatenate the hits, deduplicate and sort, convert to
documents, optionally compress, and return.  Any exception raised inside
the body is caught and re-raised as a single `RetrievalError` whose
details carry the query and the collection name. -/

/-- `src.core.exceptions.RetrievalError` as raised at lines 156-159: the
message and the two detail fields. -/
structure RetrievalError where
  message : String
  query : String
  collection : String
deriving DecidableEq, Repr

/-- `_convert_to_documents` (lines 224-258): one `Document` per hit, with
the payload text as content and id/score as metadata. -/
def convert_to_documents (results : List ScoredPoint) : List Document :=
  results.map (fun r =>
    { page_content := r.content, id := r.id, score := r.score })

/-- The search loop of `retrieve` (lines 99-108): one search per query
variant with `limit = top_k`, extending `all_results`. -/
def searchAll (search : Nat → Vec → Except String (List ScoredPoint))
    (topK : Nat) :
    List (String × Vec) → List ScoredPoint →
      Except String (List ScoredPoint)
  | [], acc => .ok acc
  | p :: rest, acc =>
    match search topK p.2 with
    | .error e => .error e
    | .ok r => searchAll search topK rest (acc ++ r)

/-- Body of `RAGPipeline.retrieve` (the `try` block, lines 78-148). -/
def retrieveBody (numVariations : Nat) (llm : Except String String)
    (service : List String → Except String (List Vec))
    (cache : List (String × Vec))
    (search : Nat → Vec → Except String (List ScoredPoint))
    (oracle : String → String → String) (budget : Nat) (topK : Nat)
    (enableCompression : Bool) (enableMultiQuery : Bool) (query : String) :
    Except String (List Document) :=
  match
    if enableMultiQuery then generate_queries numVariations llm query
    else .ok [query] with
  | .error e => .error e
  | .ok queries =>
    match embed_documents service cache queries with
    | .error e => .error e
    | .ok queryEmbeddings =>
      match searchAll search topK (queries.zip queryEmbeddings) [] with
      | .error e => .error e
      | .ok allResults =>
        let documents :=
          convert_to_documents (deduplicate_results allResults)
        .ok
          (if enableCompression && !documents.isEmpty then
            (compress_documents oracle budget documents query).1
          else documents)

/-- `RAGPipeline.retrieve` (lines 58-159): the body with its
`except Exception` handler, which wraps any error into a single
`RetrievalError` with `details={"query": query, "collection": ...}`. -/
def retrieve (numVariations : Nat) (llm : Except String String)
    (service : List String → Except String (List Vec))
    (cache : List (String × Vec))
    (search : Nat → Vec → Except String (List ScoredPoint))
    (oracle : String → String → String) (budget : Nat) (topK : Nat)
    (enableCompression : Bool) (enableMultiQuery : Bool)
    (collection : String) (query : String) :
    Except RetrievalError (List Document) :=
  match retrieveBody numVariations llm service cache search oracle budget
      topK enableCompression enableMultiQuery query with
  | .ok docs => .ok docs
  | .error e =>
    .error { message := "RAG retrieval failed: " ++ e,
             query := query, collection := collection }

/-! ## Theorems -/

set_option maxRecDepth 40000

/-- Helper for C8: every document produced by the compression loop has as
content the oracle result for it, which the loop checked is not the
sentinel. -/
theorem compressLoop_content_ne_sentinel
    (oracle : String → String → String) (query : String) (budget : Nat) :
    ∀ (docs : List Document) (total : Nat),
      ∀ d ∈ (compressLoop oracle query budget docs total).1,
        d.page_content ≠ "NOT_RELEVANT" := by
  intro docs
  induction docs with
  | nil => intro total d hd; simp [compressLoop] at hd
  | cons x rest ih =>
    intro total d hd
    rw [compressLoop] at hd
    by_cases hb : budget ≤ total
    · simp [hb] at hd
    · simp only [if_neg hb] at hd
      by_cases hc : oracle x.page_content query = "NOT_RELEVANT"
      · simp only [hc, if_pos rfl] at hd
        exact ih _ d hd
      · simp only [if_neg hc] at hd
        rcases List.mem_cons.mp hd with h | h
        · subst h; simpa using hc
        · exact ih _ d h

/-- C8: for a non-blank query, no document whose per-document compression
result is the sentinel `"NOT_RELEVANT"` appears in the output of
`compress_documents` (every returned document carries a non-sentinel
compression result as content), and a sentinel document contributes
nothing to the running token total: the loop continues on the remaining
documents with the total unchanged. -/
theorem compress_documents_drops_not_relevant
    (oracle : String → String → String) (budget : Nat)
    (documents : List Document) (query : String)
    (hq : pyStrip query ≠ "") :
    (∀ d ∈ (compress_documents oracle budget documents query).1,
        d.page_content ≠ "NOT_RELEVANT") ∧
    (∀ (d : Document) (rest : List Document) (total : Nat),
        total < budget →
        oracle d.page_content query = "NOT_RELEVANT" →
        compressLoop oracle query budget (d :: rest) total =
          ((compressLoop oracle query budget rest total).1,
           d.page_content :: (compressLoop oracle query budget rest total).2)) := by
  constructor
  · intro d hd
    by_cases hdocs : documents = []
    · subst hdocs; simp [compress_documents] at hd
    · rw [compress_documents, if_neg hdocs, if_neg hq] at hd
      exact compressLoop_content_ne_sentinel oracle query budget documents 0 d hd
  · intro d rest total ht hc
    rw [compressLoop, if_neg (Nat.not_le.mpr ht)]
    simp [hc]

/-- Witness for C8 at a concrete input: the oracle maps the first
document to the sentinel; the loop skips it and keeps the total at 0. -/
theorem compress_documents_drops_not_relevant_witness :
    compressLoop (fun d _ => if d = "bad" then "NOT_RELEVANT" else d)
        "q" 1000 [{ page_content := "bad", id := "1", score := 1 }] 0 =
      (((compressLoop (fun d _ => if d = "bad" then "NOT_RELEVANT" else d)
          "q" 1000 [] 0).1),
       "bad" ::
        (compressLoop (fun d _ => if d = "bad" then "NOT_RELEVANT" else d)
          "q" 1000 [] 0).2) :=
  (compress_documents_drops_not_relevant
      (fun d _ => if d = "bad" then "NOT_RELEVANT" else d) 1000
      [{ page_content := "bad", id := "1", score := 1 }] "q"
      (by decide)).2
    { page_content := "bad", id := "1", score := 1 } [] 0 (by decide)
    (by decide)

/-- C10: `compress_documents` returns `[]` (and issues no generation
call) on an empty document list, and returns the documents unchanged
(and issues no generation call) when the query is empty after
stripping. -/
theorem compress_documents_degenerate_inputs :
    (∀ (oracle : String → String → String) (budget : Nat) (query : String),
        compress_documents oracle budget [] query = ([], [])) ∧
    (∀ (oracle : String → String → String) (budget : Nat)
        (documents : List Document) (query : String),
        pyStrip query = "" →
        compress_documents oracle budget documents query =
          (documents, [])) := by
  constructor
  · intro oracle budget query
    simp [compress_documents]
  · intro oracle budget documents query hq
    by_cases hdocs : documents = []
    · subst hdocs; simp [compress_documents]
    · rw [compress_documents, if_neg hdocs, if_pos hq]

/-- Witness for C10 at a concrete input: a whitespace-only query returns
the input documents unchanged with no generation call. -/
theorem compress_documents_degenerate_inputs_witness :
    compress_documents (fun d _ => d) 1000
        [{ page_content := "x", id := "1", score := 1 }] "  " =
      ([{ page_content := "x", id := "1", score := 1 }], []) :=
  compress_documents_degenerate_inputs.2 (fun d _ => d) 1000
    [{ page_content := "x", id := "1", score := 1 }] "  " (by decide)

/-- A 1600-character document body; its estimated token cost in
`compress_documents` is `1600 // 4 = 400`. -/
def budgetContent : String := ⟨List.replicate 1600 'x'⟩

/-- An oracle whose compression returns the document unchanged, so the
compressed cost of each document below stays 400. -/
def identityOracle : String → String → String := fun d _ => d

/-- A document with the 400-token body and the given id. -/
def budgetDoc (i : String) : Document :=
  { page_content := budgetContent, id := i, score := 1 }

/-- Counterexample to C3: with budget 1000 and three documents of
estimated token cost 400 each, `compress_documents` returns all three
documents, not just the first two: the loop only stops when the running
total has already reached the budget before a document, and 400 + 400 =
800 < 1000, so the third document is still processed and included. -/
theorem compress_documents_budget_counterexample :
    ((compress_documents identityOracle 1000
        [budgetDoc "1", budgetDoc "2", budgetDoc "3"] "q").1).map
        (fun d => d.id) = ["1", "2", "3"] ∧
    (["1", "2", "3"] : List String) ≠ ["1", "2"] := by
  constructor
  · decide
  · decide

/-- C3 amended: with budget 1000 and documents of estimated token cost
400 each, `compress_documents` keeps the first three documents (the
running total before the third is 800 < 1000) and drops documents from
the fourth on (the running total before it is 1200 ≥ 1000); in general
the loop stops exactly when the running total has already reached the
budget before a document. -/
theorem compress_documents_budget_amended :
    (((compress_documents identityOracle 1000
        [budgetDoc "1", budgetDoc "2", budgetDoc "3"] "q").1).map
        (fun d => d.id) = ["1", "2", "3"]) ∧
    (((compress_documents identityOracle 1000
        [budgetDoc "1", budgetDoc "2", budgetDoc "3", budgetDoc "4"]
        "q").1).map (fun d => d.id) = ["1", "2", "3"]) ∧
    (∀ (oracle : String → String → String) (query : String)
        (budget : Nat) (d : Document) (rest : List Document) (total : Nat),
        budget ≤ total →
        compressLoop oracle query budget (d :: rest) total = ([], [])) := by
  refine ⟨by decide, by decide, ?_⟩
  intro oracle query budget d rest total ht
  rw [compressLoop, if_pos ht]

/-- Witness for the amended C3 at a concrete input: with the running
total already at the budget, the loop drops all remaining documents. -/
theorem compress_documents_budget_amended_witness :
    compressLoop identityOracle "q" 1000 [budgetDoc "5"] 1200 = ([], []) :=
  compress_documents_budget_amended.2.2 identityOracle "q" 1000
    (budgetDoc "5") [] 1200 (by decide)

/-- C6: for a non-blank query, a failure of the generation call makes
`generate_queries` return exactly `[original_query]` instead of
propagating the failure. -/
theorem generate_queries_fallback (n : Nat) (e : String) (q : String)
    (hq : pyStrip q ≠ "") :
    generate_queries n (.error e) q = .ok [q] := by
  rw [generate_queries, if_neg hq]

/-- Witness for C6 at a concrete input. -/
theorem generate_queries_fallback_witness :
    generate_queries 3 (.error "boom") "hi" = .ok ["hi"] :=
  generate_queries_fallback 3 "boom" "hi" (by decide)

/-- Counterexample to C7: when the generation reply repeats a line, the
returned list contains two equal elements; the set is deduplicated
against the original query only, not within the generated variants. -/
theorem generate_queries_duplicate_counterexample :
    generate_queries 3 (.ok "foo\nfoo") "q" = .ok ["q", "foo", "foo"] ∧
    ¬ (["q", "foo", "foo"] : List String).Nodup := by
  exact ⟨rfl, by decide⟩

/-- C7 amended: for a non-blank query and any generation reply, the
returned list starts with the original query, has length between 1 and
`num_variations + 1`, and no generated variant equals the original
query; duplicates among the generated variants themselves are kept. -/
theorem generate_queries_shape (n : Nat) (q text : String)
    (L : List String) (hq : pyStrip q ≠ "")
    (hL : generate_queries n (.ok text) q = .ok L) :
    L.head? = some q ∧ 1 ≤ L.length ∧ L.length ≤ n + 1 ∧
      ∀ v ∈ L.tail, v ≠ q := by
  rw [generate_queries, if_neg hq] at hL
  have hL' : L = assembleQueries n q text := by
    injection hL with h
    exact h.symm
  subst hL'
  rw [assembleQueries, List.take_succ_cons]
  refine ⟨rfl, by simp, by simp [List.length_take_le], ?_⟩
  intro v hv
  have hv' : v ∈ (parseVariations text).filter (fun v => v ≠ q) :=
    List.mem_of_mem_take (by simpa using hv)
  simpa using (List.mem_filter.mp hv').2

/-- Witness for the amended C7 at a concrete input. -/
theorem generate_queries_shape_witness :
    (["q", "foo", "foo"] : List String).head? = some "q" ∧
      1 ≤ (["q", "foo", "foo"] : List String).length ∧
      (["q", "foo", "foo"] : List String).length ≤ 3 + 1 ∧
      ∀ v ∈ (["q", "foo", "foo"] : List String).tail, v ≠ "q" :=
  generate_queries_shape 3 "q" "foo\nfoo" ["q", "foo", "foo"] (by decide)
    rfl

/-- The effect of one loop iteration of `_deduplicate_results` on the
retained hit of one id: keep the old hit unless the new score is
strictly greater. -/
def keepMax (o : Option ScoredPoint) (h : ScoredPoint) : Option ScoredPoint :=
  match o with
  | none => some h
  | some m => if m.score < h.score then some h else some m

/-- Helper for C1: how `insertHit` changes the first hit with a given
id. -/
theorem find?_insertHit (acc : List ScoredPoint) (r : ScoredPoint)
    (i : String) :
    (insertHit acc r).find? (fun h => h.id == i) =
      if r.id = i then keepMax (acc.find? (fun h => h.id == i)) r
      else acc.find? (fun h => h.id == i) := by
  induction acc with
  | nil =>
    by_cases hri : r.id = i
    · simp [insertHit, keepMax, hri]
    · simp [insertHit, keepMax, hri]
  | cons p rest ih =>
    by_cases hpr : p.id = r.id
    · by_cases hri : r.id = i
      · have hpi : p.id = i := hpr.trans hri
        by_cases hs : p.score < r.score
        · simp [insertHit, hpr, hs, hri, hpi, keepMax]
        · simp [insertHit, hpr, hs, hri, hpi, keepMax]
      · have hpi : ¬ p.id = i := fun h => hri (hpr ▸ h)
        by_cases hs : p.score < r.score
        · simp [insertHit, hpr, hs, hri, hpi]
        · simp [insertHit, hpr, hs, hri, hpi]
    · by_cases hpi : p.id = i
      · have hri : ¬ r.id = i := fun h => hpr (by rw [hpi, h])
        have hir : ¬ i = r.id := fun h => hri h.symm
        simp [insertHit, hpr, hpi, hri, hir]
      · simp [insertHit, hpr, hpi, ih]

/-- Helper for C1: the retained hit for an id after the whole fold is the
`keepMax`-fold over the hits with that id, in input order. -/
theorem find?_foldl_insertHit (l : List ScoredPoint) :
    ∀ (acc : List ScoredPoint) (i : String),
      (l.foldl insertHit acc).find? (fun h => h.id == i) =
        (l.filter (fun h => h.id == i)).foldl keepMax
          (acc.find? (fun h => h.id == i)) := by
  induction l with
  | nil => intro acc i; rfl
  | cons r l ih =>
    intro acc i
    rw [List.foldl_cons, ih]
    by_cases hri : r.id = i
    · rw [find?_insertHit, if_pos hri,
        List.filter_cons_of_pos (by simp [hri]), List.foldl_cons]
    · rw [find?_insertHit, if_neg hri,
        List.filter_cons_of_neg (by simp [hri])]

/-- Helper for C1: a `keepMax`-fold started from a hit yields a hit. -/
theorem foldl_keepMax_isSome (fl : List ScoredPoint) :
    ∀ b : ScoredPoint, ∃ m, fl.foldl keepMax (some b) = some m := by
  induction fl with
  | nil => intro b; exact ⟨b, rfl⟩
  | cons x rest ih =>
    intro b
    rw [List.foldl_cons]
    by_cases h : b.score < x.score
    · simpa [keepMax, h] using ih x
    · simpa [keepMax, h] using ih b

/-- Helper for C1: the result of a `keepMax`-fold is either the starting
hit (when nothing beats it) or an element of the list that is maximal
and strictly beats the starting hit, and then it is the first element
whose score reaches the maximum. -/
theorem foldl_keepMax_spec (fl : List ScoredPoint) :
    ∀ b m : ScoredPoint, fl.foldl keepMax (some b) = some m →
      (m = b ∧ ∀ x ∈ fl, x.score ≤ m.score) ∨
      (b.score < m.score ∧ m ∈ fl ∧ (∀ x ∈ fl, x.score ≤ m.score) ∧
        fl.find? (fun x => decide (m.score ≤ x.score)) = some m) := by
  induction fl with
  | nil =>
    intro b m hm
    simp only [List.foldl_nil, Option.some.injEq] at hm
    exact Or.inl ⟨hm.symm, by simp⟩
  | cons x rest ih =>
    intro b m hm
    rw [List.foldl_cons] at hm
    by_cases h : b.score < x.score
    · rw [show keepMax (some b) x = some x by simp [keepMax, h]] at hm
      rcases ih x m hm with ⟨hmx, hall⟩ | ⟨hlt, hmem, hall, hfind⟩
      · subst hmx
        refine Or.inr ⟨h, List.mem_cons_self _ _, ?_, ?_⟩
        · intro y hy
          rcases List.mem_cons.mp hy with hy | hy
          · exact hy ▸ le_refl _
          · exact hall y hy
        · exact List.find?_cons_of_pos _ (by simp)
      · refine Or.inr ⟨lt_trans h hlt, List.mem_cons_of_mem _ hmem, ?_, ?_⟩
        · intro y hy
          rcases List.mem_cons.mp hy with hy | hy
          · exact hy ▸ le_of_lt hlt
          · exact hall y hy
        · rw [List.find?_cons_of_neg _ (by simp [not_le.mpr hlt]), hfind]
    · rw [show keepMax (some b) x = some b by simp [keepMax, h]] at hm
      rcases ih b m hm with ⟨hmb, hall⟩ | ⟨hlt, hmem, hall, hfind⟩
      · refine Or.inl ⟨hmb, ?_⟩
        intro y hy
        rcases List.mem_cons.mp hy with hy | hy
        · exact hy ▸ (hmb ▸ not_lt.mp h)
        · exact hall y hy
      · refine Or.inr ⟨hlt, List.mem_cons_of_mem _ hmem, ?_, ?_⟩
        · intro y hy
          rcases List.mem_cons.mp hy with hy | hy
          · exact hy ▸ le_of_lt (lt_of_le_of_lt (not_lt.mp h) hlt)
          · exact hall y hy
        · rw [List.find?_cons_of_neg _
            (by simp [not_le.mpr (lt_of_le_of_lt (not_lt.mp h) hlt)]), hfind]

/-- Helper for C1: a `keepMax`-fold from `none` returns an element of the
list that is maximal in score, and it is the first element whose score
reaches the maximum. -/
theorem foldl_keepMax_none_spec (fl : List ScoredPoint) (m : ScoredPoint)
    (hm : fl.foldl keepMax none = some m) :
    m ∈ fl ∧ (∀ x ∈ fl, x.score ≤ m.score) ∧
      fl.find? (fun x => decide (m.score ≤ x.score)) = some m := by
  cases fl with
  | nil => simp [List.foldl] at hm
  | cons x rest =>
    rw [List.foldl_cons, show keepMax none x = some x from rfl] at hm
    rcases foldl_keepMax_spec rest x m hm with ⟨hmx, hall⟩ | ⟨hlt, hmem, hall, hfind⟩
    · subst hmx
      refine ⟨List.mem_cons_self _ _, ?_, List.find?_cons_of_pos _ (by simp)⟩
      intro y hy
      rcases List.mem_cons.mp hy with hy | hy
      · exact hy ▸ le_refl _
      · exact hall y hy
    · refine ⟨List.mem_cons_of_mem _ hmem, ?_, ?_⟩
      · intro y hy
        rcases List.mem_cons.mp hy with hy | hy
        · exact hy ▸ le_of_lt hlt
        · exact hall y hy
      · rw [List.find?_cons_of_neg _ (by simp [not_le.mpr hlt]), hfind]

/-- Helper for C1: `insertHit` only adds the new hit or keeps old ones. -/
theorem mem_insertHit (acc : List ScoredPoint) (r b : ScoredPoint)
    (hb : b ∈ insertHit acc r) : b ∈ acc ∨ b = r := by
  induction acc with
  | nil =>
    simp [insertHit] at hb
    exact Or.inr hb
  | cons p rest ih =>
    rw [insertHit] at hb
    by_cases hpr : p.id = r.id
    · rw [if_pos hpr] at hb
      rcases List.mem_cons.mp hb with h | h
      · by_cases hs : p.score < r.score
        · rw [if_pos hs] at h; exact Or.inr h
        · rw [if_neg hs] at h; exact Or.inl (h ▸ List.mem_cons_self _ _)
      · exact Or.inl (List.mem_cons_of_mem _ h)
    · rw [if_neg hpr] at hb
      rcases List.mem_cons.mp hb with h | h
      · exact Or.inl (h ▸ List.mem_cons_self _ _)
      · rcases ih h with h' | h'
        · exact Or.inl (List.mem_cons_of_mem _ h')
        · exact Or.inr h'

/-- Helper for C1: `insertHit` preserves distinctness of ids (the dict
never holds two entries with the same key). -/
theorem pairwise_insertHit (acc : List ScoredPoint) (r : ScoredPoint)
    (h : acc.Pairwise (fun a b => a.id ≠ b.id)) :
    (insertHit acc r).Pairwise (fun a b => a.id ≠ b.id) := by
  induction acc with
  | nil => simp [insertHit]
  | cons p rest ih =>
    rw [List.pairwise_cons] at h
    obtain ⟨hp, hrest⟩ := h
    rw [insertHit]
    by_cases hpr : p.id = r.id
    · rw [if_pos hpr, List.pairwise_cons]
      refine ⟨fun b hb => ?_, hrest⟩
      have hhead : (if p.score < r.score then r else p).id = p.id := by
        by_cases hs : p.score < r.score
        · rw [if_pos hs, ← hpr]
        · rw [if_neg hs]
      rw [hhead]
      exact hp b hb
    · rw [if_neg hpr, List.pairwise_cons]
      refine ⟨fun b hb => ?_, ih hrest⟩
      rcases mem_insertHit rest r b hb with h' | h'
      · exact hp b h'
      · exact h' ▸ hpr

/-- Helper for C1: the whole fold keeps ids distinct. -/
theorem pairwise_foldl_insertHit (l : List ScoredPoint) :
    ∀ acc, acc.Pairwise (fun a b => a.id ≠ b.id) →
      (l.foldl insertHit acc).Pairwise (fun a b => a.id ≠ b.id) := by
  induction l with
  | nil => intro acc h; exact h
  | cons r l ih =>
    intro acc h
    rw [List.foldl_cons]
    exact ih _ (pairwise_insertHit acc r h)

/-- Helper for C1: in a list with distinct ids, searching for the id of a
member finds exactly that member. -/
theorem find?_of_pairwise_mem (F : List ScoredPoint)
    (hF : F.Pairwise (fun a b => a.id ≠ b.id)) (m : ScoredPoint)
    (hm : m ∈ F) : F.find? (fun h => h.id == m.id) = some m := by
  induction F with
  | nil => cases hm
  | cons p rest ih =>
    rw [List.pairwise_cons] at hF
    obtain ⟨hp, hrest⟩ := hF
    rcases List.mem_cons.mp hm with h | h
    · subst h
      exact List.find?_cons_of_pos _ (by simp)
    · rw [List.find?_cons_of_neg _ (by simpa using hp m h)]
      exact ih hrest h

/-- C1: the merge/deduplication step keeps no two hits with the same id;
every id present in the input is retained; and the retained hit for an
id is an input hit with that id whose score is the maximum over all
input hits with that id, namely the first input hit reaching that
maximum (so on equal scores the first hit encountered wins). -/
theorem deduplicate_results_correct (l : List ScoredPoint) :
    ((deduplicate_results l).Pairwise (fun a b => a.id ≠ b.id)) ∧
    (∀ h ∈ l, ∃ m ∈ deduplicate_results l, m.id = h.id) ∧
    (∀ m ∈ deduplicate_results l,
        m ∈ l ∧ (∀ h ∈ l, h.id = m.id → h.score ≤ m.score) ∧
        l.find? (fun h => h.id == m.id && decide (m.score ≤ h.score)) =
          some m) := by
  have hFpair : (l.foldl insertHit []).Pairwise (fun a b => a.id ≠ b.id) :=
    pairwise_foldl_insertHit l [] List.Pairwise.nil
  have hperm : List.Perm (deduplicate_results l) (l.foldl insertHit []) :=
    List.perm_insertionSort scoreDesc _
  refine ⟨?_, ?_, ?_⟩
  · exact (List.Perm.pairwise_iff (fun h => h.symm) hperm).mpr hFpair
  · intro h hl
    have hne : ∃ m, (l.filter (fun x => x.id == h.id)).foldl keepMax none =
        some m := by
      cases hf : l.filter (fun x => x.id == h.id) with
      | nil =>
        exact absurd (List.mem_filter.mpr ⟨hl, beq_self_eq_true h.id⟩)
          (by rw [hf]; exact List.not_mem_nil h)
      | cons x rest =>
        rw [List.foldl_cons, show keepMax none x = some x from rfl]
        exact foldl_keepMax_isSome rest x
    obtain ⟨m, hm⟩ := hne
    have hfind : (l.foldl insertHit []).find? (fun x => x.id == h.id) =
        some m := by
      rw [find?_foldl_insertHit l [] h.id]
      exact hm
    refine ⟨m, hperm.mem_iff.mpr (List.mem_of_find?_eq_some hfind), ?_⟩
    simpa using List.find?_some hfind
  · intro m hm
    have hmF : m ∈ l.foldl insertHit [] := hperm.mem_iff.mp hm
    have hfind : (l.foldl insertHit []).find? (fun x => x.id == m.id) =
        some m := find?_of_pairwise_mem _ hFpair m hmF
    rw [find?_foldl_insertHit l [] m.id] at hfind
    obtain ⟨hmem, hall, hfirst⟩ := foldl_keepMax_none_spec _ m hfind
    refine ⟨(List.mem_filter.mp hmem).1, ?_, ?_⟩
    · intro h hl hid
      exact hall h (List.mem_filter.mpr ⟨hl, by simp [hid]⟩)
    · rw [List.find?_filter] at hfirst
      simpa using hfirst

/-- Witness for C1 at a concrete input: two hits share id `"a"` with
scores 2 and 3; the retained hit is the one with score 3, i.e. the
first input hit whose score reaches the maximum. -/
theorem deduplicate_results_correct_witness :
    ([⟨"a", 2, "u"⟩, ⟨"a", 3, "v"⟩] : List ScoredPoint).find?
        (fun h => h.id == (⟨"a", 3, "v"⟩ : ScoredPoint).id &&
          decide ((⟨"a", 3, "v"⟩ : ScoredPoint).score ≤ h.score)) =
      some ⟨"a", 3, "v"⟩ :=
  ((deduplicate_results_correct [⟨"a", 2, "u"⟩, ⟨"a", 3, "v"⟩]).2.2
    ⟨"a", 3, "v"⟩ (by decide)).2.2

/-- A hit with id `"b"`, used for the C2 tie-break counterexample. -/
def tieHitB : ScoredPoint := ⟨"b", 1, "cb"⟩

/-- A hit with id `"a"` and the same score as `tieHitB`. -/
def tieHitA : ScoredPoint := ⟨"a", 1, "ca"⟩

/-- Counterexample to C2: two hits with equal scores and ids `"b"`,
`"a"` (in that input order) come out in input order `["b", "a"]`, not in
ascending id order `["a", "b"]`: the sort is stable on the score only
and has no id tie-break. -/
theorem deduplicate_results_tie_counterexample :
    deduplicate_results [tieHitB, tieHitA] = [tieHitB, tieHitA] ∧
    tieHitB.score = tieHitA.score ∧
    (deduplicate_results [tieHitB, tieHitA]).map (fun p => p.id) =
      ["b", "a"] ∧
    ("a" : String) < "b" := by
  refine ⟨by decide, by decide, by decide, ?_⟩
  rw [String.lt_iff_toList_lt]
  decide

/-- C2 amended: the output of the merge step is sorted descending by
score, is a permutation of the deduplicated set, and equal-score hits
keep the order in which their ids were first inserted (stable sort);
there is no ascending-id tie-break. -/
theorem deduplicate_results_sorted (l : List ScoredPoint) :
    (deduplicate_results l).Pairwise scoreDesc ∧
    List.Perm (deduplicate_results l) (l.foldl insertHit []) ∧
    (∀ a b : ScoredPoint, scoreDesc a b →
        [a, b].Sublist (l.foldl insertHit []) →
        [a, b].Sublist (deduplicate_results l)) := by
  refine ⟨List.sorted_insertionSort scoreDesc _,
    List.perm_insertionSort scoreDesc _, ?_⟩
  intro a b hab hsub
  exact List.pair_sublist_insertionSort hab hsub

/-- Witness for the amended C2 at a concrete input: the two equal-score
hits keep their insertion order in the sorted output. -/
theorem deduplicate_results_sorted_witness :
    ([tieHitB, tieHitA] : List ScoredPoint).Sublist
      (deduplicate_results [tieHitB, tieHitA]) :=
  (deduplicate_results_sorted [tieHitB, tieHitA]).2.2 tieHitB tieHitA
    (by decide) (by decide)

/-- Helper for C5: the positions recorded by the first pass are at least
the starting position. -/
theorem splitCached_indices_ge (cache : List (String × Vec)) :
    ∀ (l : List String) (i : Nat),
      ∀ j ∈ (splitCached cache l i).2.2, i ≤ j := by
  intro l
  induction l with
  | nil => intro i j hj; simp [splitCached] at hj
  | cons t rest ih =>
    intro i j hj
    rw [splitCached] at hj
    cases hl : lookupCache cache t with
    | some v =>
      rw [hl] at hj
      exact Nat.le_of_succ_le (ih (i + 1) j hj)
    | none =>
      rw [hl] at hj
      rcases List.mem_cons.mp hj with h | h
      · exact h ▸ le_refl _
      · exact Nat.le_of_succ_le (ih (i + 1) j h)

/-- Helper for C5: a position index smaller than the current position
never fires again in the merge loop. -/
theorem mergeLoop_skip_lt (j : Nat) (idxs : List Nat) :
    ∀ (k i : Nat) (newE cachedE : List Vec), j < i →
      mergeLoop i (j :: idxs) newE cachedE k =
        mergeLoop i idxs newE cachedE k := by
  intro k
  induction k with
  | zero => intro i newE cachedE _; rfl
  | succ k ih =>
    intro i newE cachedE hj
    have hij : i ≠ j := fun h => absurd (h ▸ hj) (lt_irrefl j)
    rw [mergeLoop, mergeLoop]
    by_cases hmem : i ∈ idxs
    · rw [if_pos (List.mem_cons_of_mem _ hmem), if_pos hmem,
        ih (i + 1) _ _ (Nat.lt_succ_of_lt hj)]
    · rw [if_neg (by simp [hij, hmem]), if_neg hmem,
        ih (i + 1) _ _ (Nat.lt_succ_of_lt hj)]

/-- Helper for C5: the merge loop rebuilds the embeddings in input
order, taking the service result for uncached texts and the cached
vector otherwise. -/
theorem mergeLoop_splitCached (cache : List (String × Vec))
    (f : String → Vec) :
    ∀ (l : List String) (i : Nat),
      mergeLoop i (splitCached cache l i).2.2
          ((splitCached cache l i).2.1.map f) (splitCached cache l i).1
          l.length =
        l.map (fun t => (lookupCache cache t).getD (f t)) := by
  intro l
  induction l with
  | nil => intro i; rfl
  | cons t rest ih =>
    intro i
    rw [splitCached]
    cases hl : lookupCache cache t with
    | some v =>
      have hnotmem : i ∉ (splitCached cache rest (i + 1)).2.2 := fun h =>
        absurd (splitCached_indices_ge cache rest (i + 1) i h)
          (by simp)
      simp only [List.length_cons, List.map_cons, hl, Option.getD_some]
      rw [mergeLoop, if_neg hnotmem]
      simp only [List.headD_cons, List.tail_cons]
      rw [ih (i + 1)]
    | none =>
      simp only [List.length_cons, List.map_cons, hl, Option.getD_none]
      rw [mergeLoop, if_pos (List.mem_cons_self _ _)]
      simp only [List.headD_cons, List.tail_cons]
      rw [mergeLoop_skip_lt i _ rest.length (i + 1) _ _ (Nat.lt_succ_self i),
        ih (i + 1)]

/-- Helper for C5: when every text is cached, the first pass already
returns the vectors in input order. -/
theorem splitCached_all_cached (cache : List (String × Vec))
    (f : String → Vec) :
    ∀ (l : List String) (i : Nat), (splitCached cache l i).2.1 = [] →
      (splitCached cache l i).1 =
        l.map (fun t => (lookupCache cache t).getD (f t)) := by
  intro l
  induction l with
  | nil => intro i _; rfl
  | cons t rest ih =>
    intro i hte
    rw [splitCached] at hte ⊢
    cases hl : lookupCache cache t with
    | some v =>
      rw [hl] at hte
      simp only [List.map_cons, hl, Option.getD_some]
      rw [ih (i + 1) hte]
    | none =>
      rw [hl] at hte
      exact absurd hte (by simp)

/-- Helper for C5: with a per-text embedding service (one vector per
text, as `aembed_documents` computes), `embed_documents` returns exactly
one vector per input text in input order: the cached vector for cached
texts and the freshly computed one otherwise. -/
theorem embed_documents_batch (f : String → Vec)
    (cache : List (String × Vec)) (texts : List String) :
    embed_documents (fun ts => .ok (ts.map f)) cache texts =
      .ok (texts.map (fun t => (lookupCache cache t).getD (f t))) := by
  by_cases h0 : texts = []
  · subst h0; simp [embed_documents]
  · by_cases hte : (splitCached cache texts 0).2.1 = []
    · rw [show embed_documents (fun ts => .ok (ts.map f)) cache texts =
          .ok (splitCached cache texts 0).1 by
        simp [embed_documents, h0, hte]]
      rw [splitCached_all_cached cache f texts 0 hte]
    · rw [show embed_documents (fun ts => .ok (ts.map f)) cache texts =
          .ok (mergeLoop 0 (splitCached cache texts 0).2.2
            ((splitCached cache texts 0).2.1.map f)
            (splitCached cache texts 0).1 texts.length) by
        simp [embed_documents, h0, hte]]
      rw [mergeLoop_splitCached cache f texts 0]

/-- Counterexample to C5: with an empty cache, the single batched service
call for `["a", "b", "a"]` carries all three texts, including the
duplicate — not the two-element set `{"a", "b"}`: the first pass only
checks the cache, which is filled after the batch call, so a duplicate
inside one batch is not collapsed. -/
theorem embed_documents_call_counterexample :
    embedCallArgs [] ["a", "b", "a"] = ["a", "b", "a"] ∧
    (embedCallArgs [] ["a", "b", "a"]).length = 3 ∧
    ¬ (embedCallArgs [] ["a", "b", "a"]).Nodup := by
  refine ⟨by decide, by decide, by decide⟩

/-- C5 amended: `embed_documents` issues (at most) one batched service
call whose argument is the list of cache-missed texts in input order,
duplicates included — for `["a", "b", "a"]` with an empty cache that is
`["a", "b", "a"]` itself; and it returns exactly one vector per input
text, in the original input order, so equal texts receive equal vectors
(positions 0 and 2 agree). -/
theorem embed_documents_correct :
    (∀ (f : String → Vec) (cache : List (String × Vec))
        (texts : List String),
        embed_documents (fun ts => .ok (ts.map f)) cache texts =
          .ok (texts.map (fun t => (lookupCache cache t).getD (f t)))) ∧
    (∀ f : String → Vec,
        embed_documents (fun ts => .ok (ts.map f)) [] ["a", "b", "a"] =
          .ok [f "a", f "b", f "a"]) ∧
    embedCallArgs [] ["a", "b", "a"] = ["a", "b", "a"] := by
  refine ⟨embed_documents_batch, ?_, by decide⟩
  intro f
  rw [embed_documents_batch f [] ["a", "b", "a"]]
  rfl

/-- Helper for C4: the query list produced by `generate_queries` has at
most `num_variations + 1` elements. -/
theorem generate_queries_length_le (n : Nat) (llm : Except String String)
    (q : String) (Q : List String)
    (h : generate_queries n llm q = .ok Q) : Q.length ≤ n + 1 := by
  by_cases hq : pyStrip q = ""
  · cases llm with
    | error e =>
      rw [generate_queries, if_pos hq] at h
      exact absurd h (by simp)
    | ok text =>
      rw [generate_queries, if_pos hq] at h
      exact absurd h (by simp)
  · cases llm with
    | error e =>
      rw [generate_queries, if_neg hq] at h
      injection h with h
      rw [← h]
      simp
    | ok text =>
      rw [generate_queries, if_neg hq] at h
      injection h with h
      rw [← h, assembleQueries]
      exact List.length_take_le _ _

/-- Helper for C4: each search call contributes at most `limit` hits, so
the loop over the query variants collects at most
`(number of variants) * limit` hits. -/
theorem searchAll_length_le
    (search : Nat → Vec → Except String (List ScoredPoint)) (topK : Nat)
    (hsearch : ∀ lim v r, search lim v = .ok r → r.length ≤ lim) :
    ∀ (ps : List (String × Vec)) (acc R : List ScoredPoint),
      searchAll search topK ps acc = .ok R →
      R.length ≤ acc.length + ps.length * topK := by
  intro ps
  induction ps with
  | nil =>
    intro acc R h
    rw [searchAll] at h
    injection h with h
    rw [← h]
    simp
  | cons p rest ih =>
    intro acc R h
    rw [searchAll] at h
    cases hs : search topK p.2 with
    | error e =>
      rw [hs] at h
      exact absurd h (by simp)
    | ok r =>
      rw [hs] at h
      have hlen := ih (acc ++ r) R h
      rw [List.length_append] at hlen
      have hr := hsearch topK p.2 r hs
      simp only [List.length_cons, Nat.succ_mul]
      omega

/-- Helper for C4: inserting one hit grows the dict by at most one
entry. -/
theorem insertHit_length_le (acc : List ScoredPoint) (r : ScoredPoint) :
    (insertHit acc r).length ≤ acc.length + 1 := by
  induction acc with
  | nil => simp [insertHit]
  | cons p rest ih =>
    rw [insertHit]
    by_cases hpr : p.id = r.id
    · rw [if_pos hpr]
      simp
    · rw [if_neg hpr]
      simpa using Nat.succ_le_succ ih

/-- Helper for C4: the deduplicated dict has at most as many entries as
there were hits. -/
theorem foldl_insertHit_length_le (l : List ScoredPoint) :
    ∀ acc, (l.foldl insertHit acc).length ≤ acc.length + l.length := by
  induction l with
  | nil => intro acc; simp
  | cons r l ih =>
    intro acc
    rw [List.foldl_cons]
    have h1 := ih (insertHit acc r)
    have h2 := insertHit_length_le acc r
    simp only [List.length_cons]
    omega

/-- Helper for C4: compression never adds documents. -/
theorem compressLoop_length_le (oracle : String → String → String)
    (query : String) (budget : Nat) :
    ∀ (docs : List Document) (total : Nat),
      (compressLoop oracle query budget docs total).1.length ≤
        docs.length := by
  intro docs
  induction docs with
  | nil => intro total; simp [compressLoop]
  | cons d rest ih =>
    intro total
    rw [compressLoop]
    by_cases hb : budget ≤ total
    · rw [if_pos hb]
      simp
    · rw [if_neg hb]
      by_cases hc : oracle d.page_content query = "NOT_RELEVANT"
      · simp only [hc, if_pos rfl, List.length_cons]
        exact Nat.le_succ_of_le (ih total)
      · simp only [hc, if_neg hc, List.length_cons]
        exact Nat.succ_le_succ (ih _)

/-- Helper for C4: `compress_documents` never adds documents. -/
theorem compress_documents_length_le (oracle : String → String → String)
    (budget : Nat) (docs : List Document) (query : String) :
    (compress_documents oracle budget docs query).1.length ≤
      docs.length := by
  rw [compress_documents]
  by_cases h0 : docs = []
  · rw [if_pos h0, h0]
  · rw [if_neg h0]
    by_cases hq : pyStrip query = ""
    · rw [if_pos hq]
    · rw [if_neg hq]
      exact compressLoop_length_le oracle query budget docs 0

/-- C4 amended: `retrieve` returns at most
`(num_variations + 1) * top_k` documents when every search call honours
its `limit`; the code never truncates the merged result to `top_k`
itself, so the bound is the number of query variants times `top_k`, not
`top_k`. -/
theorem retrieve_length_le (numVariations : Nat)
    (llm : Except String String)
    (service : List String → Except String (List Vec))
    (cache : List (String × Vec))
    (search : Nat → Vec → Except String (List ScoredPoint))
    (oracle : String → String → String) (budget topK : Nat)
    (enableCompression enableMultiQuery : Bool)
    (collection query : String) (docs : List Document)
    (hsearch : ∀ lim v r, search lim v = .ok r → r.length ≤ lim)
    (hret : retrieve numVariations llm service cache search oracle budget
        topK enableCompression enableMultiQuery collection query =
      .ok docs) :
    docs.length ≤ (numVariations + 1) * topK := by
  rw [retrieve] at hret
  cases hbody : retrieveBody numVariations llm service cache search oracle
      budget topK enableCompression enableMultiQuery query with
  | error e =>
    rw [hbody] at hret
    exact absurd hret (by simp)
  | ok docs' =>
    rw [hbody] at hret
    injection hret with hret
    rw [retrieveBody] at hbody
    cases hq : (if enableMultiQuery then
        generate_queries numVariations llm query else .ok [query]) with
    | error e =>
      rw [hq] at hbody
      exact absurd hbody (by simp)
    | ok Q =>
      simp only [hq] at hbody
      have hQlen : Q.length ≤ numVariations + 1 := by
        by_cases hmq : enableMultiQuery
        · rw [if_pos hmq] at hq
          exact generate_queries_length_le _ _ _ _ hq
        · rw [if_neg hmq] at hq
          injection hq with hq
          rw [← hq]
          simp
      cases hemb : embed_documents service cache Q with
      | error e =>
        simp only [hemb] at hbody
        exact absurd hbody (by simp)
      | ok E =>
        simp only [hemb] at hbody
        cases hsa : searchAll search topK (Q.zip E) [] with
        | error e =>
          simp only [hsa] at hbody
          exact absurd hbody (by simp)
        | ok R =>
          simp only [hsa, Except.ok.injEq] at hbody
          have hR : R.length ≤ (numVariations + 1) * topK := by
            have h1 := searchAll_length_le search topK hsearch (Q.zip E)
              [] R hsa
            have h2 : (Q.zip E).length ≤ Q.length := by
              simp [List.length_zip]
            have h3 : (Q.zip E).length * topK ≤
                (numVariations + 1) * topK :=
              Nat.mul_le_mul_right topK (le_trans h2 hQlen)
            simp only [List.length_nil, Nat.zero_add] at h1
            exact le_trans h1 h3
          have hconv :
              (convert_to_documents (deduplicate_results R)).length ≤
                R.length := by
            rw [convert_to_documents, List.length_map,
              deduplicate_results, List.length_insertionSort]
            simpa using foldl_insertHit_length_le R []
          rw [← hret, ← hbody]
          by_cases hcomp : (enableCompression &&
              !(convert_to_documents (deduplicate_results R)).isEmpty) =
              true
          · rw [if_pos hcomp]
            exact le_trans
              (le_trans (compress_documents_length_le _ _ _ _) hconv) hR
          · rw [if_neg hcomp]
            exact le_trans hconv hR

/-- Embedding service used in the concrete C4 scenario: one coordinate
per text, its length. -/
def cexService : List String → Except String (List Vec) :=
  fun ts => .ok (ts.map (fun t => [(t.length : ℚ)]))

/-- Search oracle used in the concrete C4 scenario: honours its limit
and returns one distinct hit per query vector. -/
def cexSearch : Nat → Vec → Except String (List ScoredPoint) :=
  fun lim v =>
    .ok (if lim = 0 then []
      else if v = [1] then [⟨"id1", 1, "c1"⟩] else [⟨"id2", 1, "c2"⟩])

/-- The concrete search oracle honours its limit. -/
theorem cexSearch_respects_limit :
    ∀ lim v r, cexSearch lim v = .ok r → r.length ≤ lim := by
  intro lim v r h
  rw [cexSearch] at h
  injection h with h
  rw [← h]
  by_cases h0 : lim = 0
  · simp [h0]
  · rw [if_neg h0]
    by_cases hv : v = [1]
    · rw [if_pos hv]
      simpa using Nat.one_le_iff_ne_zero.mpr h0
    · rw [if_neg hv]
      simpa using Nat.one_le_iff_ne_zero.mpr h0

/-- Counterexample to C4: with `top_k = 1`, two query variants, and a
search oracle that honours its limit, `retrieve` returns two documents:
each per-variant search is limited to `top_k`, but the merged,
deduplicated result is never truncated to `top_k`. -/
theorem retrieve_topk_counterexample :
    retrieve 3 (.ok "q2") cexService [] cexSearch (fun d _ => d) 1000 1
        false true "col" "q" =
      .ok [{ page_content := "c1", id := "id1", score := 1 },
           { page_content := "c2", id := "id2", score := 1 }] ∧
    cexSearch 1 [1] = .ok [⟨"id1", 1, "c1"⟩] ∧
    cexSearch 1 [2] = .ok [⟨"id2", 1, "c2"⟩] ∧
    ¬ (([{ page_content := "c1", id := "id1", score := 1 },
         { page_content := "c2", id := "id2", score := 1 }] :
          List Document).length ≤ 1) := by
  refine ⟨rfl, by simp [cexSearch], by simp [cexSearch], by decide⟩

/-- Witness for the amended C4 at the concrete scenario: the two-variant
run with `top_k = 1` returns 2 documents, within the amended bound
`(3 + 1) * 1`. -/
theorem retrieve_length_le_witness :
    (([{ page_content := "c1", id := "id1", score := 1 },
       { page_content := "c2", id := "id2", score := 1 }] :
        List Document).length ≤ (3 + 1) * 1) :=
  retrieve_length_le 3 (.ok "q2") cexService [] cexSearch (fun d _ => d)
    1000 1 false true "col" "q" _ cexSearch_respects_limit rfl

/-- C9: whenever `retrieve` fails, the error it raises is a single
`RetrievalError` whose details carry the query text and the collection
name; no inner error value escapes unwrapped (the returned error is
the wrapper built at lines 156-159). -/
theorem retrieve_error_details (numVariations : Nat)
    (llm : Except String String)
    (service : List String → Except String (List Vec))
    (cache : List (String × Vec))
    (search : Nat → Vec → Except String (List ScoredPoint))
    (oracle : String → String → String) (budget topK : Nat)
    (enableCompression enableMultiQuery : Bool)
    (collection query : String) (e : RetrievalError)
    (h : retrieve numVariations llm service cache search oracle budget
        topK enableCompression enableMultiQuery collection query =
      .error e) :
    e.query = query ∧ e.collection = collection := by
  rw [retrieve] at h
  cases hbody : retrieveBody numVariations llm service cache search
      oracle budget topK enableCompression enableMultiQuery query with
  | ok docs =>
    rw [hbody] at h
    exact absurd h (by simp)
  | error err =>
    rw [hbody] at h
    injection h with h
    rw [← h]
    exact ⟨rfl, rfl⟩

/-- Embedding service that always fails, used to exercise the error
path of `retrieve`. -/
def failingService : List String → Except String (List Vec) :=
  fun _ => .error "transport"

/-- Search oracle that returns no hits, used alongside
`failingService`. -/
def emptySearch : Nat → Vec → Except String (List ScoredPoint) :=
  fun _ _ => .ok []

/-- Witness for C9 at a concrete input: a failing embedding service
makes `retrieve` return a `RetrievalError` carrying the query `"hi"`
and the collection `"col"`. -/
theorem retrieve_error_details_witness :
    ({ message := "RAG retrieval failed: transport", query := "hi",
        collection := "col" } : RetrievalError).query = "hi" ∧
    ({ message := "RAG retrieval failed: transport", query := "hi",
        collection := "col" } : RetrievalError).collection = "col" :=
  retrieve_error_details 3 (.ok "") failingService [] emptySearch
    (fun d _ => d) 1000 1 false false "col" "hi" _ rfl
